import Mathlib

/-!
Verification of the schema-driven default-filling engine of the go-kong
repository against its specification.

The repository sources available here contain the API entity (api.go) and the
test suite (utils_test.go); the filling engine itself (utils.go) is not among
them, so the engine is modelled from the specification text (sections 3, 4.3,
4.4, 4.5 of spec.md), definition by definition.  Dynamically-typed
configuration values are a recursive variant type, configuration maps are
association lists (the underlying Go maps are order-irrelevant; the list order
below is an artifact of the model), and statically-typed entities are
structures whose fields are Option-wrapped, exactly as the spec's
optional-value accessor demands.
-/

/-- Modelled from the spec (section 9, design notes): the dynamically-typed
configuration value: a tagged union over null, booleans, numbers, strings,
sequences of values and maps of values. -/
inductive Value : Type where
  | null : Value
  | bool : Bool → Value
  | num : Int → Value
  | str : String → Value
  | arr : List Value → Value
  | obj : List (String × Value) → Value

/-- Modelled from the spec (section 3): the kind of a schema field. -/
inductive FieldKind : Type where
  | scalar : FieldKind
  | record : FieldKind
  | arrayOfScalar : FieldKind
  | arrayOfRecord : FieldKind
deriving DecidableEq

/-- Modelled from the spec (section 3): one node of a parsed schema: name,
kind, optional default (present/absent distinguished), required flag, and for
record and array-of-record kinds a nested field-descriptor list. -/
inductive FieldDescriptor : Type where
  | mk : String → FieldKind → Option Value → Bool → List FieldDescriptor → FieldDescriptor

def FieldDescriptor.name : FieldDescriptor → String
  | .mk n _ _ _ _ => n

def FieldDescriptor.kind : FieldDescriptor → FieldKind
  | .mk _ k _ _ _ => k

def FieldDescriptor.dflt : FieldDescriptor → Option Value
  | .mk _ _ d _ _ => d

def FieldDescriptor.required : FieldDescriptor → Bool
  | .mk _ _ _ r _ => r

def FieldDescriptor.children : FieldDescriptor → List FieldDescriptor
  | .mk _ _ _ _ c => c

/-- Modelled from the spec (section 3): a configuration map, a mapping from
field names to values, rendered as an association list. -/
abbrev ConfigMap := List (String × Value)

/-- Key lookup in a configuration map (first binding wins). -/
def lookupV (config : ConfigMap) (key : String) : Option Value :=
  match config with
  | [] => none
  | (k, v) :: rest => if k = key then some v else lookupV rest key

/-- Key update in a configuration map: replace the first binding of the key in
place, or append a new binding when the key is absent. -/
def setKey (config : ConfigMap) (key : String) (v : Value) : ConfigMap :=
  match config with
  | [] => [(key, v)]
  | (k, w) :: rest => if k = key then (k, v) :: rest else (k, w) :: setKey rest key v

mutual

/-- Modelled from the spec (section 4.4): fillConfigRecord of the repository's
utils.go, which is not among the available sources.  Walks the field list in
declared order and applies the per-descriptor rule. -/
def fillConfigRecord (fields : List FieldDescriptor) (config : ConfigMap) : ConfigMap :=
  match fields with
  | [] => config
  | f :: rest => fillConfigRecord rest (applyField f config)
termination_by (sizeOf fields, 0)

/-- Modelled from the spec (section 4.4): the per-descriptor rule of
fillConfigRecord.  Record kind: recurse on the present nested map, or
materialize an empty one when absent.  Array-of-record kind: fill each present
element, leave an absent key absent.  Scalar and array-of-scalar kinds: leave
a present key untouched, otherwise insert the default, or an explicit nil when
no default exists. -/
def applyField (f : FieldDescriptor) (config : ConfigMap) : ConfigMap :=
  match f with
  | FieldDescriptor.mk fname kind dflt _ children =>
    match kind with
    | FieldKind.record =>
      match lookupV config fname with
      | some (Value.obj sub) => setKey config fname (Value.obj (fillConfigRecord children sub))
      | some _ => config
      | none => setKey config fname (Value.obj (fillConfigRecord children []))
    | FieldKind.arrayOfRecord =>
      match lookupV config fname with
      | some (Value.arr elems) => setKey config fname (Value.arr (fillElems children elems))
      | some _ => config
      | none => config
    | _ =>
      match lookupV config fname with
      | some _ => config
      | none => setKey config fname (dflt.getD Value.null)
termination_by (sizeOf f, 0)

/-- Modelled from the spec (section 4.4): element-wise filling of an
array-of-record value; each map element is individually passed through
fillConfigRecord with the element schema, other elements are kept. -/
def fillElems (children : List FieldDescriptor) (vs : List Value) : List Value :=
  match vs with
  | [] => []
  | Value.obj m :: rest => Value.obj (fillConfigRecord children m) :: fillElems children rest
  | v :: rest => v :: fillElems children rest
termination_by (sizeOf children, sizeOf vs + 1)

end

/-- Names declared by a field-descriptor list. -/
def fieldNames (fields : List FieldDescriptor) : List String :=
  fields.map FieldDescriptor.name

/-- Well-formedness of a parsed schema, from the spec (section 3): field names
are unique within their parent field list, recursively. -/
def wfFields (fields : List FieldDescriptor) : Bool :=
  match fields with
  | [] => true
  | f :: rest =>
      !((fieldNames rest).contains f.name) && wfFields f.children && wfFields rest
termination_by sizeOf fields
decreasing_by
  all_goals (cases f; simp [FieldDescriptor.children]; try omega)

/-- Modelled from the spec (section 4.3): whether a descriptor list carries a
default transitively (a default on one of its fields or, recursively, inside a
nested descriptor list). -/
def hasDefaultTransitive (fields : List FieldDescriptor) : Bool :=
  match fields with
  | [] => false
  | FieldDescriptor.mk _ _ d _ children :: rest =>
      d.isSome || hasDefaultTransitive children || hasDefaultTransitive rest
termination_by sizeOf fields

/-- The effect of one descriptor on the value stored under its own key,
expressed as a function of the previous value. -/
def fieldResult (f : FieldDescriptor) (v : Option Value) : Option Value :=
  match f.kind with
  | FieldKind.record =>
    match v with
    | some (Value.obj sub) => some (Value.obj (fillConfigRecord f.children sub))
    | some w => some w
    | none => some (Value.obj (fillConfigRecord f.children []))
  | FieldKind.arrayOfRecord =>
    match v with
    | some (Value.arr es) => some (Value.arr (fillElems f.children es))
    | some w => some w
    | none => none
  | _ =>
    match v with
    | some w => some w
    | none => some (f.dflt.getD Value.null)

/-- Conversion of a schema default value into a typed integer field. -/
def intOf : Value → Option Int
  | Value.num n => some n
  | _ => none

/-- Conversion of a schema default value into a typed string field. -/
def strOf : Value → Option String
  | Value.str s => some s
  | _ => none

/-- Conversion of a schema default value into a typed boolean field. -/
def boolOf : Value → Option Bool
  | Value.bool b => some b
  | _ => none

/-- Conversion of a list of schema values into a list of integers. -/
def intsOf : List Value → Option (List Int)
  | [] => some []
  | v :: rest =>
    match intOf v, intsOf rest with
    | some n, some ns => some (n :: ns)
    | _, _ => none

/-- Conversion of a schema default value into a typed integer-list field. -/
def intListOf : Value → Option (List Int)
  | Value.arr vs => intsOf vs
  | _ => none

/-- Modelled from the spec (section 4.3): the effect of one descriptor on one
scalar optional field of a statically-typed record: a set field is skipped, an
unset field named by the descriptor receives the descriptor's default when one
exists and converts to the field's type. -/
def stepScalar {α : Type} (f : FieldDescriptor) (nm : String) (conv : Value → Option α)
    (cur : Option α) : Option α :=
  if f.name = nm then cur.or (f.dflt.bind conv) else cur

/-- Modelled from the spec (section 4.3): the effect of one descriptor on one
record-kind optional field of a statically-typed record: a set field is
skipped and not recursed into; an unset field with no default whose nested
descriptors carry defaults transitively is constructed empty and recursively
filled. -/
def stepRecord {α : Type} (f : FieldDescriptor) (nm : String)
    (fill : List FieldDescriptor → α → α) (empty : α) (cur : Option α) : Option α :=
  if f.name = nm then
    match cur with
    | some x => some x
    | none =>
      if f.kind = FieldKind.record && f.dflt.isNone && hasDefaultTransitive f.children then
        some (fill f.children empty)
      else
        none
  else cur

/-- Modelled from the repository's typed Target entity: optional target
address and weight (the schema drives which of them receives a default). -/
@[ext] structure Target where
  target : Option String := none
  weight : Option Int := none

/-- Modelled from the spec (section 4.3): one descriptor step of the record
default-filler specialized to the Target entity. -/
def applyTargetField (f : FieldDescriptor) (t : Target) : Target :=
  { target := stepScalar f "target" strOf t.target,
    weight := stepScalar f "weight" intOf t.weight }

/-- Modelled from the spec (section 4.3): FillEntityDefaults of the
repository's utils.go specialized to the Target entity: walk the schema's
field list in order, filling unset fields only. -/
def fillTarget (fields : List FieldDescriptor) (t : Target) : Target :=
  match fields with
  | [] => t
  | f :: rest => fillTarget rest (applyTargetField f t)

/-- Modelled from the repository's Healthy healthcheck sub-entity. -/
@[ext] structure Healthy where
  httpStatuses : Option (List Int) := none
  interval : Option Int := none
  successes : Option Int := none

/-- Modelled from the repository's Unhealthy healthcheck sub-entity. -/
@[ext] structure Unhealthy where
  httpFailures : Option Int := none
  httpStatuses : Option (List Int) := none
  tcpFailures : Option Int := none
  timeouts : Option Int := none
  interval : Option Int := none

/-- Modelled from the repository's ActiveHealthcheck sub-entity. -/
@[ext] structure ActiveHealthcheck where
  concurrency : Option Int := none
  healthy : Option Healthy := none
  httpPath : Option String := none
  httpsVerifyCertificate : Option Bool := none
  typ : Option String := none
  timeout : Option Int := none
  unhealthy : Option Unhealthy := none

/-- Modelled from the repository's PassiveHealthcheck sub-entity. -/
@[ext] structure PassiveHealthcheck where
  healthy : Option Healthy := none
  typ : Option String := none
  unhealthy : Option Unhealthy := none

/-- Modelled from the repository's Healthcheck sub-entity. -/
@[ext] structure Healthcheck where
  active : Option ActiveHealthcheck := none
  passive : Option PassiveHealthcheck := none

/-- Modelled from the repository's Upstream entity (the fields exercised by
the upstream schema). -/
@[ext] structure Upstream where
  name : Option String := none
  algorithm : Option String := none
  slots : Option Int := none
  healthchecks : Option Healthcheck := none
  hashOn : Option String := none
  hashFallback : Option String := none
  hashOnCookiePath : Option String := none

/-- Modelled from the spec (section 4.3): one descriptor step on Healthy. -/
def applyHealthyField (f : FieldDescriptor) (h : Healthy) : Healthy :=
  { httpStatuses := stepScalar f "http_statuses" intListOf h.httpStatuses,
    interval := stepScalar f "interval" intOf h.interval,
    successes := stepScalar f "successes" intOf h.successes }

/-- Modelled from the spec (section 4.3): the record default-filler
specialized to Healthy. -/
def fillHealthy (fields : List FieldDescriptor) (h : Healthy) : Healthy :=
  match fields with
  | [] => h
  | f :: rest => fillHealthy rest (applyHealthyField f h)

/-- Modelled from the spec (section 4.3): one descriptor step on Unhealthy. -/
def applyUnhealthyField (f : FieldDescriptor) (h : Unhealthy) : Unhealthy :=
  { httpFailures := stepScalar f "http_failures" intOf h.httpFailures,
    httpStatuses := stepScalar f "http_statuses" intListOf h.httpStatuses,
    tcpFailures := stepScalar f "tcp_failures" intOf h.tcpFailures,
    timeouts := stepScalar f "timeouts" intOf h.timeouts,
    interval := stepScalar f "interval" intOf h.interval }

/-- Modelled from the spec (section 4.3): the record default-filler
specialized to Unhealthy. -/
def fillUnhealthy (fields : List FieldDescriptor) (h : Unhealthy) : Unhealthy :=
  match fields with
  | [] => h
  | f :: rest => fillUnhealthy rest (applyUnhealthyField f h)

/-- Modelled from the spec (section 4.3): one descriptor step on
ActiveHealthcheck; its healthy and unhealthy record-kind fields recurse per
the record rule. -/
def applyActiveField (f : FieldDescriptor) (a : ActiveHealthcheck) : ActiveHealthcheck :=
  { concurrency := stepScalar f "concurrency" intOf a.concurrency,
    healthy := stepRecord f "healthy" fillHealthy {} a.healthy,
    httpPath := stepScalar f "http_path" strOf a.httpPath,
    httpsVerifyCertificate := stepScalar f "https_verify_certificate" boolOf a.httpsVerifyCertificate,
    typ := stepScalar f "type" strOf a.typ,
    timeout := stepScalar f "timeout" intOf a.timeout,
    unhealthy := stepRecord f "unhealthy" fillUnhealthy {} a.unhealthy }

/-- Modelled from the spec (section 4.3): the record default-filler
specialized to ActiveHealthcheck. -/
def fillActive (fields : List FieldDescriptor) (a : ActiveHealthcheck) : ActiveHealthcheck :=
  match fields with
  | [] => a
  | f :: rest => fillActive rest (applyActiveField f a)

/-- Modelled from the spec (section 4.3): one descriptor step on
PassiveHealthcheck. -/
def applyPassiveField (f : FieldDescriptor) (p : PassiveHealthcheck) : PassiveHealthcheck :=
  { healthy := stepRecord f "healthy" fillHealthy {} p.healthy,
    typ := stepScalar f "type" strOf p.typ,
    unhealthy := stepRecord f "unhealthy" fillUnhealthy {} p.unhealthy }

/-- Modelled from the spec (section 4.3): the record default-filler
specialized to PassiveHealthcheck. -/
def fillPassive (fields : List FieldDescriptor) (p : PassiveHealthcheck) : PassiveHealthcheck :=
  match fields with
  | [] => p
  | f :: rest => fillPassive rest (applyPassiveField f p)

/-- Modelled from the spec (section 4.3): one descriptor step on
Healthcheck. -/
def applyHealthcheckField (f : FieldDescriptor) (h : Healthcheck) : Healthcheck :=
  { active := stepRecord f "active" fillActive {} h.active,
    passive := stepRecord f "passive" fillPassive {} h.passive }

/-- Modelled from the spec (section 4.3): the record default-filler
specialized to Healthcheck. -/
def fillHealthcheck (fields : List FieldDescriptor) (h : Healthcheck) : Healthcheck :=
  match fields with
  | [] => h
  | f :: rest => fillHealthcheck rest (applyHealthcheckField f h)

/-- Modelled from the spec (section 4.3): one descriptor step on Upstream;
its healthchecks record-kind field recurses per the record rule. -/
def applyUpstreamField (f : FieldDescriptor) (u : Upstream) : Upstream :=
  { name := stepScalar f "name" strOf u.name,
    algorithm := stepScalar f "algorithm" strOf u.algorithm,
    slots := stepScalar f "slots" intOf u.slots,
    healthchecks := stepRecord f "healthchecks" fillHealthcheck {} u.healthchecks,
    hashOn := stepScalar f "hash_on" strOf u.hashOn,
    hashFallback := stepScalar f "hash_fallback" strOf u.hashFallback,
    hashOnCookiePath := stepScalar f "hash_on_cookie_path" strOf u.hashOnCookiePath }

/-- Modelled from the spec (section 4.3): FillEntityDefaults of the
repository's utils.go specialized to the Upstream entity. -/
def fillUpstream (fields : List FieldDescriptor) (u : Upstream) : Upstream :=
  match fields with
  | [] => u
  | f :: rest => fillUpstream rest (applyUpstreamField f u)

/-- Modelled from the repository's Plugin entity: the open-ended embedded
configuration map (the typed plugin fields play no role in the claims). -/
structure Plugin where
  config : ConfigMap := []

/-- Modelled from the spec (section 4.5): FillPluginsDefaults of the
repository's utils.go restricted to its configuration phase: the plugin's
embedded configuration map goes through the configuration default-filler
against the schema's config field list. -/
def FillPluginsDefaults (schemaFields : List FieldDescriptor) (p : Plugin) : Plugin :=
  { config := fillConfigRecord schemaFields p.config }

/-- Modelled from src/kong/api.go: the API entity; every field individually
optional, host/method/uri lists of nullable strings. -/
structure API where
  createdAt : Option Int := none
  hosts : List (Option String) := []
  methods : List (Option String) := []
  uris : List (Option String) := []
  httpIfTerminated : Option Bool := none
  httpsOnly : Option Bool := none
  id : Option String := none
  name : Option String := none
  preserveHost : Option Bool := none
  retries : Option Int := none
  stripURI : Option Bool := none
  upstreamConnectTimeout : Option Int := none
  upstreamReadTimeout : Option Int := none
  upstreamSendTimeout : Option Int := none
  upstreamURL : Option String := none

/-- Modelled from the spec: the helper isEmptyString used by API.Valid is not
among the available sources; modelled by its plain meaning as used there: a
nil pointer or the empty string. -/
def isEmptyString : Option String → Bool
  | none => true
  | some s => s == ""

/-- Translated from src/kong/api.go, API.Valid: name and upstream URL must be
non-empty, and at least one of hosts, methods, uris must be non-empty. -/
def API.Valid (api : API) : Bool :=
  if isEmptyString api.name || isEmptyString api.upstreamURL then false
  else if api.hosts.length == 0 && api.methods.length == 0 && api.uris.length == 0 then false
  else true

/-- One element of an array-of-record value: a map element is filled against
the element schema, any other element is kept as is. -/
def fillElem (children : List FieldDescriptor) (v : Value) : Value :=
  match v with
  | Value.obj m => Value.obj (fillConfigRecord children m)
  | v => v

/-- Iterated stepScalar along a field list, the projection of a typed entity
filler onto one scalar field. -/
def foldScalar {α : Type} (nm : String) (conv : Value → Option α)
    (fields : List FieldDescriptor) (cur : Option α) : Option α :=
  match fields with
  | [] => cur
  | f :: rest => foldScalar nm conv rest (stepScalar f nm conv cur)

/-- Iterated stepRecord along a field list, the projection of a typed entity
filler onto one record-kind field. -/
def foldRecord {α : Type} (nm : String) (fill : List FieldDescriptor → α → α) (empty : α)
    (fields : List FieldDescriptor) (cur : Option α) : Option α :=
  match fields with
  | [] => cur
  | f :: rest => foldRecord nm fill empty rest (stepRecord f nm fill empty cur)

/-- Schema of the target entity as in the repository's target test data:
a target address with no default and a weight defaulting to 100. -/
def targetFields : List FieldDescriptor :=
  [FieldDescriptor.mk "target" FieldKind.scalar none false [],
   FieldDescriptor.mk "weight" FieldKind.scalar (some (Value.num 100)) false []]

/-- Element schema of the mappings array in the Test_fillConfigRecord
schema: name and nationality, optional strings with no default. -/
def mappingFields : List FieldDescriptor :=
  [FieldDescriptor.mk "name" FieldKind.scalar none false [],
   FieldDescriptor.mk "nationality" FieldKind.scalar none false []]

/-- Config field list of the Test_fillConfigRecord schema: enabled, boolean
defaulting to true, and mappings, an array of records. -/
def enabledMappingsFields : List FieldDescriptor :=
  [FieldDescriptor.mk "enabled" FieldKind.scalar (some (Value.bool true)) true [],
   FieldDescriptor.mk "mappings" FieldKind.arrayOfRecord none false mappingFields]

/-- Leaf schema shared by the request-transformer record fields: body,
headers, querystring, each an array of scalars defaulting to the empty
sequence. -/
def bodyHeadersQuerystringFields : List FieldDescriptor :=
  [FieldDescriptor.mk "body" FieldKind.arrayOfScalar (some (Value.arr [])) false [],
   FieldDescriptor.mk "headers" FieldKind.arrayOfScalar (some (Value.arr [])) false [],
   FieldDescriptor.mk "querystring" FieldKind.arrayOfScalar (some (Value.arr [])) false []]

/-- Schema fragment of the request-transformer plugin: the remove record
field with its three array-of-scalar leaves. -/
def removeFields : List FieldDescriptor :=
  [FieldDescriptor.mk "remove" FieldKind.record none false bodyHeadersQuerystringFields]

/-- Schema of the healthy sub-object of the active healthcheck, defaults as
in the repository's upstream test data. -/
def activeHealthyFields : List FieldDescriptor :=
  [FieldDescriptor.mk "http_statuses" FieldKind.arrayOfScalar
      (some (Value.arr [Value.num 200, Value.num 302])) false [],
   FieldDescriptor.mk "interval" FieldKind.scalar (some (Value.num 0)) false [],
   FieldDescriptor.mk "successes" FieldKind.scalar (some (Value.num 0)) false []]

/-- Schema of the unhealthy sub-object of the active healthcheck. -/
def activeUnhealthyFields : List FieldDescriptor :=
  [FieldDescriptor.mk "http_failures" FieldKind.scalar (some (Value.num 0)) false [],
   FieldDescriptor.mk "http_statuses" FieldKind.arrayOfScalar
      (some (Value.arr [Value.num 429, Value.num 404, Value.num 500, Value.num 501,
        Value.num 502, Value.num 503, Value.num 504, Value.num 505])) false [],
   FieldDescriptor.mk "tcp_failures" FieldKind.scalar (some (Value.num 0)) false [],
   FieldDescriptor.mk "timeouts" FieldKind.scalar (some (Value.num 0)) false [],
   FieldDescriptor.mk "interval" FieldKind.scalar (some (Value.num 0)) false []]

/-- Schema of the active healthcheck sub-object. -/
def activeFields : List FieldDescriptor :=
  [FieldDescriptor.mk "concurrency" FieldKind.scalar (some (Value.num 10)) false [],
   FieldDescriptor.mk "healthy" FieldKind.record none false activeHealthyFields,
   FieldDescriptor.mk "http_path" FieldKind.scalar (some (Value.str "/")) false [],
   FieldDescriptor.mk "https_verify_certificate" FieldKind.scalar
      (some (Value.bool true)) false [],
   FieldDescriptor.mk "type" FieldKind.scalar (some (Value.str "http")) false [],
   FieldDescriptor.mk "timeout" FieldKind.scalar (some (Value.num 1)) false [],
   FieldDescriptor.mk "unhealthy" FieldKind.record none false activeUnhealthyFields]

/-- Schema of the healthy sub-object of the passive healthcheck (no interval
default there). -/
def passiveHealthyFields : List FieldDescriptor :=
  [FieldDescriptor.mk "http_statuses" FieldKind.arrayOfScalar
      (some (Value.arr [Value.num 200, Value.num 201, Value.num 202, Value.num 203,
        Value.num 204, Value.num 205, Value.num 206, Value.num 207, Value.num 208,
        Value.num 226, Value.num 300, Value.num 301, Value.num 302, Value.num 303,
        Value.num 304, Value.num 305, Value.num 306, Value.num 307, Value.num 308]))
      false [],
   FieldDescriptor.mk "successes" FieldKind.scalar (some (Value.num 0)) false []]

/-- Schema of the unhealthy sub-object of the passive healthcheck. -/
def passiveUnhealthyFields : List FieldDescriptor :=
  [FieldDescriptor.mk "http_failures" FieldKind.scalar (some (Value.num 0)) false [],
   FieldDescriptor.mk "http_statuses" FieldKind.arrayOfScalar
      (some (Value.arr [Value.num 429, Value.num 500, Value.num 503])) false [],
   FieldDescriptor.mk "tcp_failures" FieldKind.scalar (some (Value.num 0)) false [],
   FieldDescriptor.mk "timeouts" FieldKind.scalar (some (Value.num 0)) false []]

/-- Schema of the passive healthcheck sub-object. -/
def passiveFields : List FieldDescriptor :=
  [FieldDescriptor.mk "healthy" FieldKind.record none false passiveHealthyFields,
   FieldDescriptor.mk "type" FieldKind.scalar (some (Value.str "http")) false [],
   FieldDescriptor.mk "unhealthy" FieldKind.record none false passiveUnhealthyFields]

/-- Schema of the healthchecks record field of the upstream entity. -/
def healthchecksFields : List FieldDescriptor :=
  [FieldDescriptor.mk "active" FieldKind.record none false activeFields,
   FieldDescriptor.mk "passive" FieldKind.record none false passiveFields]

/-- Schema of the upstream entity, defaults as in the repository's upstream
test data. -/
def upstreamFields : List FieldDescriptor :=
  [FieldDescriptor.mk "name" FieldKind.scalar none true [],
   FieldDescriptor.mk "algorithm" FieldKind.scalar (some (Value.str "round-robin")) false [],
   FieldDescriptor.mk "slots" FieldKind.scalar (some (Value.num 10000)) false [],
   FieldDescriptor.mk "healthchecks" FieldKind.record none false healthchecksFields,
   FieldDescriptor.mk "hash_on" FieldKind.scalar (some (Value.str "none")) false [],
   FieldDescriptor.mk "hash_fallback" FieldKind.scalar (some (Value.str "none")) false [],
   FieldDescriptor.mk "hash_on_cookie_path" FieldKind.scalar (some (Value.str "/")) false []]

/-- The fully-defaulted healthcheck value, as asserted by the repository's
TestFillUpstreamsDefaults expectations. -/
def expectedHealthcheck : Healthcheck :=
  { active := some
      { concurrency := some 10,
        healthy := some { httpStatuses := some [200, 302], interval := some 0,
                          successes := some 0 },
        httpPath := some "/",
        httpsVerifyCertificate := some true,
        typ := some "http",
        timeout := some 1,
        unhealthy := some { httpFailures := some 0,
                            httpStatuses := some [429, 404, 500, 501, 502, 503, 504, 505],
                            tcpFailures := some 0, timeouts := some 0,
                            interval := some 0 } },
    passive := some
      { healthy := some { httpStatuses := some [200, 201, 202, 203, 204, 205, 206, 207,
                            208, 226, 300, 301, 302, 303, 304, 305, 306, 307, 308],
                          interval := none, successes := some 0 },
        typ := some "http",
        unhealthy := some { httpFailures := some 0,
                            httpStatuses := some [429, 500, 503],
                            tcpFailures := some 0, timeouts := some 0,
                            interval := none } } }

theorem lookup_setKey_self (c : ConfigMap) (k : String) (v : Value) :
    lookupV (setKey c k v) k = some v := by
  induction c with
  | nil => simp [setKey, lookupV]
  | cons p rest ih =>
    obtain ⟨a, b⟩ := p
    by_cases h : a = k
    · simp [setKey, lookupV, h]
    · simp [setKey, lookupV, h, ih]

theorem lookup_setKey_ne (c : ConfigMap) (k key : String) (v : Value) (h : k ≠ key) :
    lookupV (setKey c key v) k = lookupV c k := by
  have h2 : key ≠ k := fun hh => h hh.symm
  induction c with
  | nil => simp [setKey, lookupV, h2]
  | cons p rest ih =>
    obtain ⟨a, b⟩ := p
    by_cases ha : a = key
    · subst ha
      simp [setKey, lookupV, h2]
    · simp [setKey, ha, lookupV, ih]

theorem setKey_self (c : ConfigMap) (k : String) (v : Value) (h : lookupV c k = some v) :
    setKey c k v = c := by
  induction c with
  | nil => simp [lookupV] at h
  | cons p rest ih =>
    obtain ⟨a, b⟩ := p
    by_cases ha : a = k
    · subst ha
      simp [lookupV] at h
      simp [setKey, h]
    · simp [lookupV, ha] at h
      simp [setKey, ha, ih h]

theorem lookup_applyField_ne (f : FieldDescriptor) (c : ConfigMap) (k : String)
    (h : k ≠ f.name) : lookupV (applyField f c) k = lookupV c k := by
  obtain ⟨n, kd, d, r, ch⟩ := f
  simp only [FieldDescriptor.name] at h
  cases kd <;> (simp only [applyField]; split) <;>
    first
      | rfl
      | exact lookup_setKey_ne c k n _ h

theorem lookup_applyField_self (f : FieldDescriptor) (c : ConfigMap) :
    lookupV (applyField f c) f.name = fieldResult f (lookupV c f.name) := by
  obtain ⟨n, kd, d, r, ch⟩ := f
  simp only [FieldDescriptor.name, fieldResult, FieldDescriptor.kind,
    FieldDescriptor.children, FieldDescriptor.dflt]
  cases kd <;> (simp only [applyField]; split) <;>
    simp_all [lookup_setKey_self]

theorem lookup_fill_not_mem (fields : List FieldDescriptor) (c : ConfigMap) (k : String)
    (h : k ∉ fieldNames fields) : lookupV (fillConfigRecord fields c) k = lookupV c k := by
  induction fields generalizing c with
  | nil => simp [fillConfigRecord]
  | cons f rest ih =>
    simp only [fieldNames, List.map_cons, List.mem_cons, not_or] at h
    rw [fillConfigRecord, ih _ (by simpa [fieldNames] using h.2),
      lookup_applyField_ne f c k h.1]

theorem lookup_fill_of_mem (fields : List FieldDescriptor) (f : FieldDescriptor)
    (c : ConfigMap) (hwf : wfFields fields = true) (hmem : f ∈ fields) :
    lookupV (fillConfigRecord fields c) f.name = fieldResult f (lookupV c f.name) := by
  induction fields generalizing c with
  | nil => simp at hmem
  | cons g rest ih =>
    rw [wfFields] at hwf
    simp only [Bool.and_eq_true, Bool.not_eq_true'] at hwf
    obtain ⟨⟨hg, _⟩, hrest⟩ := hwf
    have hgmem : g.name ∉ fieldNames rest := by
      simpa using hg
    rcases List.mem_cons.mp hmem with hfg | hfr
    · subst hfg
      rw [fillConfigRecord, lookup_fill_not_mem rest _ _ hgmem, lookup_applyField_self]
    · have hne : f.name ≠ g.name := by
        intro hh
        exact hgmem (hh ▸ (List.mem_map.mpr ⟨f, hfr, rfl⟩))
      rw [fillConfigRecord, ih (applyField g c) hrest hfr,
        lookup_applyField_ne g c f.name hne]

theorem fieldResult_some_of_some (f : FieldDescriptor) (v : Value) :
    ∃ w, fieldResult f (some v) = some w := by
  obtain ⟨n, kd, d, r, ch⟩ := f
  cases kd <;> cases v <;>
    simp [fieldResult, FieldDescriptor.kind, FieldDescriptor.children]

theorem fieldResult_some_of_kind (f : FieldDescriptor) (ov : Option Value)
    (h : f.kind ≠ FieldKind.arrayOfRecord) : ∃ w, fieldResult f ov = some w := by
  obtain ⟨n, kd, d, r, ch⟩ := f
  simp only [FieldDescriptor.kind] at h
  cases kd <;> rcases ov with _ | v <;> first
    | (exact absurd rfl h)
    | (cases v <;>
        simp [fieldResult, FieldDescriptor.kind, FieldDescriptor.children, FieldDescriptor.dflt])
    | simp [fieldResult, FieldDescriptor.kind, FieldDescriptor.children, FieldDescriptor.dflt]

theorem applyField_preserves_some (f : FieldDescriptor) (c : ConfigMap) (k : String)
    (v : Value) (h : lookupV c k = some v) : ∃ w, lookupV (applyField f c) k = some w := by
  by_cases hk : k = f.name
  · subst hk
    rw [lookup_applyField_self, h]
    exact fieldResult_some_of_some f v
  · rw [lookup_applyField_ne f c k hk]
    exact ⟨v, h⟩

theorem fill_preserves_some (fields : List FieldDescriptor) (c : ConfigMap) (k : String)
    (v : Value) (h : lookupV c k = some v) :
    ∃ w, lookupV (fillConfigRecord fields c) k = some w := by
  induction fields generalizing c v with
  | nil => exact ⟨v, by simpa [fillConfigRecord] using h⟩
  | cons f rest ih =>
    obtain ⟨w, hw⟩ := applyField_preserves_some f c k v h
    rw [fillConfigRecord]
    exact ih (applyField f c) w hw

theorem applyField_of_scalarish (f : FieldDescriptor) (c : ConfigMap)
    (hkind : f.kind = FieldKind.scalar ∨ f.kind = FieldKind.arrayOfScalar)
    (h : lookupV c f.name ≠ none) : applyField f c = c := by
  obtain ⟨n, kd, d, r, ch⟩ := f
  simp only [FieldDescriptor.kind] at hkind
  simp only [FieldDescriptor.name] at h
  rcases hv : lookupV c n with _ | v
  · exact absurd hv h
  · rcases hkind with hk | hk <;> subst hk <;> simp [applyField, hv]

theorem fill_preserves_scalar (fields : List FieldDescriptor) (c : ConfigMap) (k : String)
    (v : Value) (h : lookupV c k = some v)
    (hsc : ∀ f ∈ fields, f.name = k →
      f.kind = FieldKind.scalar ∨ f.kind = FieldKind.arrayOfScalar) :
    lookupV (fillConfigRecord fields c) k = some v := by
  induction fields generalizing c with
  | nil => simpa [fillConfigRecord] using h
  | cons f rest ih =>
    rw [fillConfigRecord]
    have hrest : ∀ g ∈ rest, g.name = k →
        g.kind = FieldKind.scalar ∨ g.kind = FieldKind.arrayOfScalar :=
      fun g hg => hsc g (List.mem_cons_of_mem f hg)
    by_cases hk : k = f.name
    · have := applyField_of_scalarish f c (hsc f (List.mem_cons_self f rest) hk.symm)
        (by rw [← hk, h]; simp)
      rw [this]
      exact ih c h hrest
    · have hc : lookupV (applyField f c) k = some v := by
        rw [lookup_applyField_ne f c k hk, h]
      exact ih (applyField f c) hc hrest

theorem fillElems_eq_map (children : List FieldDescriptor) (vs : List Value) :
    fillElems children vs = vs.map (fillElem children) := by
  induction vs with
  | nil => simp [fillElems]
  | cons v rest ih =>
    cases v <;> simp [fillElems, fillElem, ih]

theorem fillElems_idem_of (ch : List FieldDescriptor)
    (hfill : ∀ m, fillConfigRecord ch (fillConfigRecord ch m) = fillConfigRecord ch m)
    (vs : List Value) : fillElems ch (fillElems ch vs) = fillElems ch vs := by
  induction vs with
  | nil => simp [fillElems]
  | cons v rest ih => cases v <;> simp [fillElems, ih, hfill]

theorem applyField_fix (f : FieldDescriptor) (c y : ConfigMap)
    (hfill : ∀ m, fillConfigRecord f.children (fillConfigRecord f.children m) =
      fillConfigRecord f.children m)
    (hy : lookupV y f.name = fieldResult f (lookupV c f.name)) :
    applyField f y = y := by
  obtain ⟨n, kd, d, r, ch⟩ := f
  simp only [FieldDescriptor.name, FieldDescriptor.children] at hfill hy
  cases kd
  case scalar =>
    obtain ⟨w, hw⟩ := fieldResult_some_of_kind (FieldDescriptor.mk n FieldKind.scalar d r ch)
      (lookupV c n) (by simp [FieldDescriptor.kind])
    rw [hw] at hy
    simp [applyField, hy]
  case arrayOfScalar =>
    obtain ⟨w, hw⟩ := fieldResult_some_of_kind
      (FieldDescriptor.mk n FieldKind.arrayOfScalar d r ch)
      (lookupV c n) (by simp [FieldDescriptor.kind])
    rw [hw] at hy
    simp [applyField, hy]
  case record =>
    rcases hv : lookupV c n with _ | v
    · rw [hv] at hy
      simp only [fieldResult, FieldDescriptor.kind, FieldDescriptor.children] at hy
      simp only [applyField, hy, hfill]
      exact setKey_self y n _ hy
    · rw [hv] at hy
      cases v <;>
        simp only [fieldResult, FieldDescriptor.kind, FieldDescriptor.children] at hy <;>
        simp only [applyField, hy] <;>
        try rfl
      · simp only [hfill]
        exact setKey_self y n _ hy
  case arrayOfRecord =>
    rcases hv : lookupV c n with _ | v
    · rw [hv] at hy
      simp only [fieldResult, FieldDescriptor.kind, FieldDescriptor.children] at hy
      simp [applyField, hy]
    · rw [hv] at hy
      cases v <;>
        simp only [fieldResult, FieldDescriptor.kind, FieldDescriptor.children] at hy <;>
        simp only [applyField, hy] <;>
        try rfl
      · simp only [fillElems_idem_of ch hfill]
        exact setKey_self y n _ hy

theorem fill_idem_aux (n : Nat) : ∀ (fields : List FieldDescriptor), sizeOf fields ≤ n →
    wfFields fields = true → ∀ c : ConfigMap,
    fillConfigRecord fields (fillConfigRecord fields c) = fillConfigRecord fields c := by
  induction n with
  | zero =>
    intro fields hsz
    exfalso
    cases fields <;> simp at hsz
  | succ n0 ih =>
    intro fields hsz hwf c
    cases fields with
    | nil => simp [fillConfigRecord]
    | cons f rest =>
      rw [wfFields] at hwf
      simp only [Bool.and_eq_true, Bool.not_eq_true'] at hwf
      obtain ⟨⟨hg, hwfch⟩, hwfrest⟩ := hwf
      have hgmem : f.name ∉ fieldNames rest := by simpa using hg
      have h1 : sizeOf f.children < sizeOf f := by
        obtain ⟨nn, kk, dd, rr, cc⟩ := f
        simp [FieldDescriptor.children]
        try omega
      have h2 : sizeOf f < sizeOf (f :: rest) := by simp; try omega
      have h3 : sizeOf rest < sizeOf (f :: rest) := by simp; try omega
      have hch : ∀ m, fillConfigRecord f.children (fillConfigRecord f.children m) =
          fillConfigRecord f.children m :=
        ih f.children (by omega) hwfch
      have e1 : fillConfigRecord (f :: rest) c = fillConfigRecord rest (applyField f c) := by
        rw [fillConfigRecord]
      rw [e1, fillConfigRecord]
      have hyX : lookupV (fillConfigRecord rest (applyField f c)) f.name =
          fieldResult f (lookupV c f.name) := by
        rw [lookup_fill_not_mem rest _ _ hgmem, lookup_applyField_self]
      rw [applyField_fix f c _ hch hyX]
      exact ih rest (by omega) hwfrest (applyField f c)

theorem fill_idem (fields : List FieldDescriptor) (c : ConfigMap)
    (hwf : wfFields fields = true) :
    fillConfigRecord fields (fillConfigRecord fields c) = fillConfigRecord fields c :=
  fill_idem_aux (sizeOf fields) fields le_rfl hwf c

theorem stepScalar_some {α : Type} (f : FieldDescriptor) (nm : String)
    (conv : Value → Option α) (x : α) : stepScalar f nm conv (some x) = some x := by
  unfold stepScalar
  split <;> simp

theorem foldScalar_some {α : Type} (nm : String) (conv : Value → Option α)
    (fields : List FieldDescriptor) (x : α) :
    foldScalar nm conv fields (some x) = some x := by
  induction fields with
  | nil => simp [foldScalar]
  | cons f rest ih => simp [foldScalar, stepScalar_some, ih]

theorem foldScalar_idem {α : Type} (nm : String) (conv : Value → Option α)
    (fields : List FieldDescriptor) (cur : Option α) :
    foldScalar nm conv fields (foldScalar nm conv fields cur) =
      foldScalar nm conv fields cur := by
  rcases cur with _ | x
  · rcases h : foldScalar nm conv fields none with _ | y
    · exact h
    · exact foldScalar_some nm conv fields y
  · simp [foldScalar_some]

theorem stepRecord_some {α : Type} (f : FieldDescriptor) (nm : String)
    (fill : List FieldDescriptor → α → α) (e : α) (x : α) :
    stepRecord f nm fill e (some x) = some x := by
  unfold stepRecord
  split <;> rfl

theorem foldRecord_some {α : Type} (nm : String) (fill : List FieldDescriptor → α → α)
    (e : α) (fields : List FieldDescriptor) (x : α) :
    foldRecord nm fill e fields (some x) = some x := by
  induction fields with
  | nil => simp [foldRecord]
  | cons f rest ih => simp [foldRecord, stepRecord_some, ih]

theorem fillTarget_target (fields : List FieldDescriptor) (t : Target) :
    (fillTarget fields t).target = foldScalar "target" strOf fields t.target := by
  induction fields generalizing t with
  | nil => simp [fillTarget, foldScalar]
  | cons f rest ih => simp [fillTarget, foldScalar, applyTargetField, ih]

theorem fillTarget_weight (fields : List FieldDescriptor) (t : Target) :
    (fillTarget fields t).weight = foldScalar "weight" intOf fields t.weight := by
  induction fields generalizing t with
  | nil => simp [fillTarget, foldScalar]
  | cons f rest ih => simp [fillTarget, foldScalar, applyTargetField, ih]

theorem fillTarget_idem (fields : List FieldDescriptor) (t : Target) :
    fillTarget fields (fillTarget fields t) = fillTarget fields t := by
  ext1
  · simp only [fillTarget_target]
    exact foldScalar_idem "target" strOf fields t.target
  · simp only [fillTarget_weight]
    exact foldScalar_idem "weight" intOf fields t.weight

theorem fillUpstream_healthchecks (fields : List FieldDescriptor) (u : Upstream) :
    (fillUpstream fields u).healthchecks =
      foldRecord "healthchecks" fillHealthcheck {} fields u.healthchecks := by
  induction fields generalizing u with
  | nil => simp [fillUpstream, foldRecord]
  | cons f rest ih => simp [fillUpstream, foldRecord, applyUpstreamField, ih]

/-- Claim C2: scalar defaulting with the zero/unset distinction: against the
target schema (weight defaulting to 100), filling an empty Target sets the
weight to 100, and filling a Target whose weight was explicitly set to 0
leaves the weight at 0 — an explicitly-assigned zero counts as set. -/
theorem kong_target_weight_default :
    (∀ t : Target, t.weight = none → (fillTarget targetFields t).weight = some 100) ∧
    (∀ t : Target, t.weight = some 0 → (fillTarget targetFields t).weight = some 0) ∧
    fillTarget targetFields {} = { weight := some 100 } := by
  refine ⟨?_, ?_, rfl⟩
  · intro t h
    rw [fillTarget_weight, h]
    rfl
  · intro t h
    rw [fillTarget_weight, h, foldScalar_some]

theorem kong_target_weight_default_witness :
    ({} : Target).weight = none ∧ (fillTarget targetFields {}).weight = some 100 ∧
    ({ weight := some 0 } : Target).weight = some 0 ∧
    (fillTarget targetFields { weight := some 0 }).weight = some 0 :=
  ⟨rfl, kong_target_weight_default.1 {} rfl, rfl,
    kong_target_weight_default.2.1 { weight := some 0 } rfl⟩

/-- Claim C3: nested record materialization: with a schema declaring enabled
(boolean, default true) and mappings (array of records with optional name and
nationality), filling the map with one mapping carrying only a nationality
yields enabled true and the mapping completed with an explicit nil name.  The
association-list order is a model artifact; the configuration map it denotes
is exactly the claimed one. -/
theorem kong_nested_record_materialization :
    fillConfigRecord enabledMappingsFields
      [("mappings", Value.arr [Value.obj [("nationality", Value.str "Ethiopian")]])] =
      [("mappings", Value.arr [Value.obj
          [("nationality", Value.str "Ethiopian"), ("name", Value.null)]]),
       ("enabled", Value.bool true)] := by
  simp [fillConfigRecord, applyField, fillElems, enabledMappingsFields, mappingFields,
    lookupV, setKey]

/-- Claim C9: API.Valid returns false exactly when the name or upstream URL
is nil or the empty string, or when hosts, methods and uris are all empty; in
every other case it returns true, and no other field affects the result. -/
theorem kong_api_valid_iff (api : API) :
    API.Valid api = false ↔
      (api.name = none ∨ api.name = some "" ∨
       api.upstreamURL = none ∨ api.upstreamURL = some "" ∨
       (api.hosts = [] ∧ api.methods = [] ∧ api.uris = [])) := by
  obtain ⟨ca, hosts, methods, uris, hit, hso, idf, nm, ph, rt, su, uct, urt, ust, uu⟩ := api
  simp only [API.Valid]
  rcases nm with _ | ns <;> rcases uu with _ | us <;>
    simp [isEmptyString, List.length_eq_zero]
  by_cases hn : ns = "" <;> by_cases hu : us = "" <;>
    simp [hn, hu, and_assoc]

theorem fieldResult_aor_none (f : FieldDescriptor)
    (hk : f.kind = FieldKind.arrayOfRecord) : fieldResult f none = none := by
  obtain ⟨n, kd, d, r, ch⟩ := f
  simp only [FieldDescriptor.kind] at hk
  subst hk
  simp [fieldResult, FieldDescriptor.kind]

/-- Claim C4, amended: every key declared by a well-formed field list whose
kind is scalar, array-of-scalar or record is present in the fillConfigRecord
output (as the original value, a recursively-filled value, the default, or an
explicit nil); an array-of-record key, however, is present in the output if
and only if it was present in the input — the claim's unrestricted key
completeness fails for absent array-of-record keys. -/
theorem kong_key_completeness_amended (fields : List FieldDescriptor)
    (f : FieldDescriptor) (c : ConfigMap) (hwf : wfFields fields = true)
    (hmem : f ∈ fields) :
    (f.kind ≠ FieldKind.arrayOfRecord →
      ∃ v, lookupV (fillConfigRecord fields c) f.name = some v) ∧
    (f.kind = FieldKind.arrayOfRecord →
      ((∃ v, lookupV (fillConfigRecord fields c) f.name = some v) ↔
        ∃ v, lookupV c f.name = some v)) := by
  have L := lookup_fill_of_mem fields f c hwf hmem
  constructor
  · intro hk
    rw [L]
    exact fieldResult_some_of_kind f _ hk
  · intro hk
    rw [L]
    rcases hv : lookupV c f.name with _ | v
    · simp [fieldResult_aor_none f hk]
    · obtain ⟨w, hw⟩ := fieldResult_some_of_some f v
      simp [hw]

theorem kong_key_completeness_cex :
    (∃ f ∈ enabledMappingsFields, f.name = "mappings") ∧
    lookupV (fillConfigRecord enabledMappingsFields []) "mappings" = none := by
  constructor
  · exact ⟨FieldDescriptor.mk "mappings" FieldKind.arrayOfRecord none false mappingFields,
      by simp [enabledMappingsFields], rfl⟩
  · simp [fillConfigRecord, applyField, enabledMappingsFields, mappingFields, lookupV, setKey]

theorem kong_key_completeness_witness :
    wfFields enabledMappingsFields = true ∧
    (FieldDescriptor.mk "enabled" FieldKind.scalar (some (Value.bool true)) true []
      ∈ enabledMappingsFields) ∧
    (∃ v, lookupV (fillConfigRecord enabledMappingsFields []) "enabled" = some v) := by
  have hwf : wfFields enabledMappingsFields = true := by
    simp [wfFields, enabledMappingsFields, mappingFields, fieldNames,
      FieldDescriptor.name, FieldDescriptor.children]
  have hmem : FieldDescriptor.mk "enabled" FieldKind.scalar (some (Value.bool true)) true []
      ∈ enabledMappingsFields := by simp [enabledMappingsFields]
  refine ⟨hwf, hmem, ?_⟩
  have h := (kong_key_completeness_amended enabledMappingsFields
    (FieldDescriptor.mk "enabled" FieldKind.scalar (some (Value.bool true)) true [])
    [] hwf hmem).1 (by simp [FieldDescriptor.kind])
  simpa [FieldDescriptor.name] using h

/-- Claim C5: the array-of-record rule: for a well-formed field list and an
array-of-record descriptor in it, a present key has each sequence element
individually passed through fillConfigRecord with the element schema and
replaced in place, and an absent key is left absent — no array is
fabricated. -/
theorem kong_array_of_record_rule (fields : List FieldDescriptor) (f : FieldDescriptor)
    (c : ConfigMap) (hwf : wfFields fields = true) (hmem : f ∈ fields)
    (hk : f.kind = FieldKind.arrayOfRecord) :
    (lookupV c f.name = none → lookupV (fillConfigRecord fields c) f.name = none) ∧
    (∀ elems, lookupV c f.name = some (Value.arr elems) →
      lookupV (fillConfigRecord fields c) f.name =
        some (Value.arr (elems.map (fillElem f.children)))) := by
  have L := lookup_fill_of_mem fields f c hwf hmem
  constructor
  · intro h
    rw [L, h]
    exact fieldResult_aor_none f hk
  · intro elems h
    rw [L, h]
    obtain ⟨n, kd, d, r, ch⟩ := f
    simp only [FieldDescriptor.kind] at hk
    subst hk
    simp [fieldResult, FieldDescriptor.kind, FieldDescriptor.children, fillElems_eq_map]

theorem kong_array_of_record_rule_witness :
    wfFields enabledMappingsFields = true ∧
    lookupV [("mappings", Value.arr [Value.obj [], Value.str "x"])] "mappings" =
      some (Value.arr [Value.obj [], Value.str "x"]) ∧
    lookupV (fillConfigRecord enabledMappingsFields
        [("mappings", Value.arr [Value.obj [], Value.str "x"])]) "mappings" =
      some (Value.arr ([Value.obj [], Value.str "x"].map (fillElem mappingFields))) ∧
    lookupV (fillConfigRecord enabledMappingsFields []) "mappings" = none := by
  have hwf : wfFields enabledMappingsFields = true := by
    simp [wfFields, enabledMappingsFields, mappingFields, fieldNames,
      FieldDescriptor.name, FieldDescriptor.children]
  have hmem : FieldDescriptor.mk "mappings" FieldKind.arrayOfRecord none false mappingFields
      ∈ enabledMappingsFields := by simp [enabledMappingsFields]
  have h := kong_array_of_record_rule enabledMappingsFields
    (FieldDescriptor.mk "mappings" FieldKind.arrayOfRecord none false mappingFields)
    [("mappings", Value.arr [Value.obj [], Value.str "x"])] hwf hmem
    (by simp [FieldDescriptor.kind])
  have h0 := kong_array_of_record_rule enabledMappingsFields
    (FieldDescriptor.mk "mappings" FieldKind.arrayOfRecord none false mappingFields)
    [] hwf hmem (by simp [FieldDescriptor.kind])
  refine ⟨hwf, by simp [lookupV, FieldDescriptor.name], ?_, ?_⟩
  · simpa [FieldDescriptor.name, FieldDescriptor.children, lookupV]
      using h.2 [Value.obj [], Value.str "x"] (by simp [lookupV, FieldDescriptor.name])
  · simpa [FieldDescriptor.name] using h0.1 (by simp [lookupV, FieldDescriptor.name])

/-- Claim C6: absent record-kind key materialization: for a well-formed field
list and a record-kind descriptor in it whose key is absent from the input
map, fillConfigRecord inserts under the key the empty nested map recursively
filled with the nested field list's defaults (the witness instantiates the
remove scenario, yielding body, headers and querystring all defaulted to the
empty sequence). -/
theorem kong_absent_record_materialization (fields : List FieldDescriptor)
    (f : FieldDescriptor) (c : ConfigMap) (hwf : wfFields fields = true)
    (hmem : f ∈ fields) (hk : f.kind = FieldKind.record)
    (habs : lookupV c f.name = none) :
    lookupV (fillConfigRecord fields c) f.name =
      some (Value.obj (fillConfigRecord f.children [])) := by
  rw [lookup_fill_of_mem fields f c hwf hmem, habs]
  obtain ⟨n, kd, d, r, ch⟩ := f
  simp only [FieldDescriptor.kind] at hk
  subst hk
  simp [fieldResult, FieldDescriptor.kind, FieldDescriptor.children]

theorem kong_absent_record_materialization_witness :
    wfFields removeFields = true ∧
    lookupV [] "remove" = none ∧
    lookupV (fillConfigRecord removeFields []) "remove" =
      some (Value.obj [("body", Value.arr []), ("headers", Value.arr []),
        ("querystring", Value.arr [])]) := by
  have hwf : wfFields removeFields = true := by
    simp [wfFields, removeFields, bodyHeadersQuerystringFields, fieldNames,
      FieldDescriptor.name, FieldDescriptor.children]
  have h := kong_absent_record_materialization removeFields
    (FieldDescriptor.mk "remove" FieldKind.record none false bodyHeadersQuerystringFields)
    [] hwf (by simp [removeFields]) (by simp [FieldDescriptor.kind])
    (by simp [lookupV, FieldDescriptor.name])
  refine ⟨hwf, by simp [lookupV], ?_⟩
  simpa [FieldDescriptor.name, FieldDescriptor.children, fillConfigRecord, applyField,
    bodyHeadersQuerystringFields, lookupV, setKey] using h

theorem foldRecord_idem {α : Type} (nm : String) (fill : List FieldDescriptor → α → α)
    (e : α) (fields : List FieldDescriptor) (cur : Option α) :
    foldRecord nm fill e fields (foldRecord nm fill e fields cur) =
      foldRecord nm fill e fields cur := by
  rcases cur with _ | x
  · rcases h : foldRecord nm fill e fields none with _ | y
    · exact h
    · exact foldRecord_some nm fill e fields y
  · simp [foldRecord_some]

theorem fillHealthy_httpStatuses (fields : List FieldDescriptor) (h : Healthy) :
    (fillHealthy fields h).httpStatuses = foldScalar "http_statuses" intListOf fields h.httpStatuses := by
  induction fields generalizing h with
  | nil => simp [fillHealthy, foldScalar, foldRecord]
  | cons f rest ih => simp [fillHealthy, foldScalar, foldRecord, applyHealthyField, ih]

theorem fillHealthy_interval (fields : List FieldDescriptor) (h : Healthy) :
    (fillHealthy fields h).interval = foldScalar "interval" intOf fields h.interval := by
  induction fields generalizing h with
  | nil => simp [fillHealthy, foldScalar, foldRecord]
  | cons f rest ih => simp [fillHealthy, foldScalar, foldRecord, applyHealthyField, ih]

theorem fillHealthy_successes (fields : List FieldDescriptor) (h : Healthy) :
    (fillHealthy fields h).successes = foldScalar "successes" intOf fields h.successes := by
  induction fields generalizing h with
  | nil => simp [fillHealthy, foldScalar, foldRecord]
  | cons f rest ih => simp [fillHealthy, foldScalar, foldRecord, applyHealthyField, ih]

theorem fillUnhealthy_httpFailures (fields : List FieldDescriptor) (h : Unhealthy) :
    (fillUnhealthy fields h).httpFailures = foldScalar "http_failures" intOf fields h.httpFailures := by
  induction fields generalizing h with
  | nil => simp [fillUnhealthy, foldScalar, foldRecord]
  | cons f rest ih => simp [fillUnhealthy, foldScalar, foldRecord, applyUnhealthyField, ih]

theorem fillUnhealthy_httpStatuses (fields : List FieldDescriptor) (h : Unhealthy) :
    (fillUnhealthy fields h).httpStatuses = foldScalar "http_statuses" intListOf fields h.httpStatuses := by
  induction fields generalizing h with
  | nil => simp [fillUnhealthy, foldScalar, foldRecord]
  | cons f rest ih => simp [fillUnhealthy, foldScalar, foldRecord, applyUnhealthyField, ih]

theorem fillUnhealthy_tcpFailures (fields : List FieldDescriptor) (h : Unhealthy) :
    (fillUnhealthy fields h).tcpFailures = foldScalar "tcp_failures" intOf fields h.tcpFailures := by
  induction fields generalizing h with
  | nil => simp [fillUnhealthy, foldScalar, foldRecord]
  | cons f rest ih => simp [fillUnhealthy, foldScalar, foldRecord, applyUnhealthyField, ih]

theorem fillUnhealthy_timeouts (fields : List FieldDescriptor) (h : Unhealthy) :
    (fillUnhealthy fields h).timeouts = foldScalar "timeouts" intOf fields h.timeouts := by
  induction fields generalizing h with
  | nil => simp [fillUnhealthy, foldScalar, foldRecord]
  | cons f rest ih => simp [fillUnhealthy, foldScalar, foldRecord, applyUnhealthyField, ih]

theorem fillUnhealthy_interval (fields : List FieldDescriptor) (h : Unhealthy) :
    (fillUnhealthy fields h).interval = foldScalar "interval" intOf fields h.interval := by
  induction fields generalizing h with
  | nil => simp [fillUnhealthy, foldScalar, foldRecord]
  | cons f rest ih => simp [fillUnhealthy, foldScalar, foldRecord, applyUnhealthyField, ih]

theorem fillActive_concurrency (fields : List FieldDescriptor) (a : ActiveHealthcheck) :
    (fillActive fields a).concurrency = foldScalar "concurrency" intOf fields a.concurrency := by
  induction fields generalizing a with
  | nil => simp [fillActive, foldScalar, foldRecord]
  | cons f rest ih => simp [fillActive, foldScalar, foldRecord, applyActiveField, ih]

theorem fillActive_healthy (fields : List FieldDescriptor) (a : ActiveHealthcheck) :
    (fillActive fields a).healthy = foldRecord "healthy" fillHealthy {} fields a.healthy := by
  induction fields generalizing a with
  | nil => simp [fillActive, foldScalar, foldRecord]
  | cons f rest ih => simp [fillActive, foldScalar, foldRecord, applyActiveField, ih]

theorem fillActive_httpPath (fields : List FieldDescriptor) (a : ActiveHealthcheck) :
    (fillActive fields a).httpPath = foldScalar "http_path" strOf fields a.httpPath := by
  induction fields generalizing a with
  | nil => simp [fillActive, foldScalar, foldRecord]
  | cons f rest ih => simp [fillActive, foldScalar, foldRecord, applyActiveField, ih]

theorem fillActive_httpsVerifyCertificate (fields : List FieldDescriptor) (a : ActiveHealthcheck) :
    (fillActive fields a).httpsVerifyCertificate = foldScalar "https_verify_certificate" boolOf fields a.httpsVerifyCertificate := by
  induction fields generalizing a with
  | nil => simp [fillActive, foldScalar, foldRecord]
  | cons f rest ih => simp [fillActive, foldScalar, foldRecord, applyActiveField, ih]

theorem fillActive_typ (fields : List FieldDescriptor) (a : ActiveHealthcheck) :
    (fillActive fields a).typ = foldScalar "type" strOf fields a.typ := by
  induction fields generalizing a with
  | nil => simp [fillActive, foldScalar, foldRecord]
  | cons f rest ih => simp [fillActive, foldScalar, foldRecord, applyActiveField, ih]

theorem fillActive_timeout (fields : List FieldDescriptor) (a : ActiveHealthcheck) :
    (fillActive fields a).timeout = foldScalar "timeout" intOf fields a.timeout := by
  induction fields generalizing a with
  | nil => simp [fillActive, foldScalar, foldRecord]
  | cons f rest ih => simp [fillActive, foldScalar, foldRecord, applyActiveField, ih]

theorem fillActive_unhealthy (fields : List FieldDescriptor) (a : ActiveHealthcheck) :
    (fillActive fields a).unhealthy = foldRecord "unhealthy" fillUnhealthy {} fields a.unhealthy := by
  induction fields generalizing a with
  | nil => simp [fillActive, foldScalar, foldRecord]
  | cons f rest ih => simp [fillActive, foldScalar, foldRecord, applyActiveField, ih]

theorem fillPassive_healthy (fields : List FieldDescriptor) (p : PassiveHealthcheck) :
    (fillPassive fields p).healthy = foldRecord "healthy" fillHealthy {} fields p.healthy := by
  induction fields generalizing p with
  | nil => simp [fillPassive, foldScalar, foldRecord]
  | cons f rest ih => simp [fillPassive, foldScalar, foldRecord, applyPassiveField, ih]

theorem fillPassive_typ (fields : List FieldDescriptor) (p : PassiveHealthcheck) :
    (fillPassive fields p).typ = foldScalar "type" strOf fields p.typ := by
  induction fields generalizing p with
  | nil => simp [fillPassive, foldScalar, foldRecord]
  | cons f rest ih => simp [fillPassive, foldScalar, foldRecord, applyPassiveField, ih]

theorem fillPassive_unhealthy (fields : List FieldDescriptor) (p : PassiveHealthcheck) :
    (fillPassive fields p).unhealthy = foldRecord "unhealthy" fillUnhealthy {} fields p.unhealthy := by
  induction fields generalizing p with
  | nil => simp [fillPassive, foldScalar, foldRecord]
  | cons f rest ih => simp [fillPassive, foldScalar, foldRecord, applyPassiveField, ih]

theorem fillHealthcheck_active (fields : List FieldDescriptor) (h : Healthcheck) :
    (fillHealthcheck fields h).active = foldRecord "active" fillActive {} fields h.active := by
  induction fields generalizing h with
  | nil => simp [fillHealthcheck, foldScalar, foldRecord]
  | cons f rest ih => simp [fillHealthcheck, foldScalar, foldRecord, applyHealthcheckField, ih]

theorem fillHealthcheck_passive (fields : List FieldDescriptor) (h : Healthcheck) :
    (fillHealthcheck fields h).passive = foldRecord "passive" fillPassive {} fields h.passive := by
  induction fields generalizing h with
  | nil => simp [fillHealthcheck, foldScalar, foldRecord]
  | cons f rest ih => simp [fillHealthcheck, foldScalar, foldRecord, applyHealthcheckField, ih]

theorem fillUpstream_name (fields : List FieldDescriptor) (u : Upstream) :
    (fillUpstream fields u).name = foldScalar "name" strOf fields u.name := by
  induction fields generalizing u with
  | nil => simp [fillUpstream, foldScalar, foldRecord]
  | cons f rest ih => simp [fillUpstream, foldScalar, foldRecord, applyUpstreamField, ih]

theorem fillUpstream_algorithm (fields : List FieldDescriptor) (u : Upstream) :
    (fillUpstream fields u).algorithm = foldScalar "algorithm" strOf fields u.algorithm := by
  induction fields generalizing u with
  | nil => simp [fillUpstream, foldScalar, foldRecord]
  | cons f rest ih => simp [fillUpstream, foldScalar, foldRecord, applyUpstreamField, ih]

theorem fillUpstream_slots (fields : List FieldDescriptor) (u : Upstream) :
    (fillUpstream fields u).slots = foldScalar "slots" intOf fields u.slots := by
  induction fields generalizing u with
  | nil => simp [fillUpstream, foldScalar, foldRecord]
  | cons f rest ih => simp [fillUpstream, foldScalar, foldRecord, applyUpstreamField, ih]

theorem fillUpstream_hashOn (fields : List FieldDescriptor) (u : Upstream) :
    (fillUpstream fields u).hashOn = foldScalar "hash_on" strOf fields u.hashOn := by
  induction fields generalizing u with
  | nil => simp [fillUpstream, foldScalar, foldRecord]
  | cons f rest ih => simp [fillUpstream, foldScalar, foldRecord, applyUpstreamField, ih]

theorem fillUpstream_hashFallback (fields : List FieldDescriptor) (u : Upstream) :
    (fillUpstream fields u).hashFallback = foldScalar "hash_fallback" strOf fields u.hashFallback := by
  induction fields generalizing u with
  | nil => simp [fillUpstream, foldScalar, foldRecord]
  | cons f rest ih => simp [fillUpstream, foldScalar, foldRecord, applyUpstreamField, ih]

theorem fillUpstream_hashOnCookiePath (fields : List FieldDescriptor) (u : Upstream) :
    (fillUpstream fields u).hashOnCookiePath = foldScalar "hash_on_cookie_path" strOf fields u.hashOnCookiePath := by
  induction fields generalizing u with
  | nil => simp [fillUpstream, foldScalar, foldRecord]
  | cons f rest ih => simp [fillUpstream, foldScalar, foldRecord, applyUpstreamField, ih]


theorem fillHealthy_idem (fields : List FieldDescriptor) (h : Healthy) :
    fillHealthy fields (fillHealthy fields h) = fillHealthy fields h := by
  ext1 <;> simp only [fillHealthy_httpStatuses, fillHealthy_interval,
    fillHealthy_successes, foldScalar_idem]

theorem fillUnhealthy_idem (fields : List FieldDescriptor) (h : Unhealthy) :
    fillUnhealthy fields (fillUnhealthy fields h) = fillUnhealthy fields h := by
  ext1 <;> simp only [fillUnhealthy_httpFailures, fillUnhealthy_httpStatuses,
    fillUnhealthy_tcpFailures, fillUnhealthy_timeouts, fillUnhealthy_interval,
    foldScalar_idem]

theorem fillActive_idem (fields : List FieldDescriptor) (a : ActiveHealthcheck) :
    fillActive fields (fillActive fields a) = fillActive fields a := by
  ext1 <;> simp only [fillActive_concurrency, fillActive_healthy, fillActive_httpPath,
    fillActive_httpsVerifyCertificate, fillActive_typ, fillActive_timeout,
    fillActive_unhealthy, foldScalar_idem, foldRecord_idem]

theorem fillPassive_idem (fields : List FieldDescriptor) (p : PassiveHealthcheck) :
    fillPassive fields (fillPassive fields p) = fillPassive fields p := by
  ext1 <;> simp only [fillPassive_healthy, fillPassive_typ, fillPassive_unhealthy,
    foldScalar_idem, foldRecord_idem]

theorem fillHealthcheck_idem (fields : List FieldDescriptor) (h : Healthcheck) :
    fillHealthcheck fields (fillHealthcheck fields h) = fillHealthcheck fields h := by
  ext1 <;> simp only [fillHealthcheck_active, fillHealthcheck_passive, foldRecord_idem]

theorem fillUpstream_idem (fields : List FieldDescriptor) (u : Upstream) :
    fillUpstream fields (fillUpstream fields u) = fillUpstream fields u := by
  ext1 <;> simp only [fillUpstream_name, fillUpstream_algorithm, fillUpstream_slots,
    fillUpstream_healthchecks, fillUpstream_hashOn, fillUpstream_hashFallback,
    fillUpstream_hashOnCookiePath, foldScalar_idem, foldRecord_idem]


theorem kong_fill_nondestructive_cex :
    lookupV [("mappings", Value.arr [Value.obj []])] "mappings" =
      some (Value.arr [Value.obj []]) ∧
    lookupV (fillConfigRecord enabledMappingsFields
        [("mappings", Value.arr [Value.obj []])]) "mappings" =
      some (Value.arr [Value.obj [("name", Value.null), ("nationality", Value.null)]]) ∧
    Value.arr [Value.obj []] ≠
      Value.arr [Value.obj [("name", Value.null), ("nationality", Value.null)]] := by
  refine ⟨by simp [lookupV], ?_, by simp⟩
  simp [fillConfigRecord, applyField, fillElems, enabledMappingsFields, mappingFields,
    lookupV, setKey]

/-- Claim C1, amended: filling never removes a set key and, for fields whose
declared kind is scalar or array-of-scalar (or which are undeclared), never
changes a set value; the typed entity fillers never alter any set field — this
is proved for every field of every modelled typed entity (Target, Upstream,
Healthcheck, ActiveHealthcheck, PassiveHealthcheck, Healthy, Unhealthy).  A
set record or array-of-record value in a configuration map, however, is
recursively filled in place, so its value may gain missing nested keys (the
counterexample above exhibits this on a set mappings array). -/
theorem kong_fill_nondestructive_amended :
    (∀ (fields : List FieldDescriptor) (c : ConfigMap) (k : String) (v : Value),
      lookupV c k = some v → ∃ w, lookupV (fillConfigRecord fields c) k = some w) ∧
    (∀ (fields : List FieldDescriptor) (c : ConfigMap) (k : String) (v : Value),
      lookupV c k = some v →
      (∀ f ∈ fields, f.name = k →
        f.kind = FieldKind.scalar ∨ f.kind = FieldKind.arrayOfScalar) →
      lookupV (fillConfigRecord fields c) k = some v) ∧
    (∀ (fields : List FieldDescriptor) (p : Plugin) (k : String) (v : Value),
      lookupV p.config k = some v →
      ∃ w, lookupV (FillPluginsDefaults fields p).config k = some w) ∧
    (∀ (fields : List FieldDescriptor) (t : Target),
      (∀ x, t.target = some x → (fillTarget fields t).target = some x) ∧
      (∀ x, t.weight = some x → (fillTarget fields t).weight = some x)) ∧
    (∀ (fields : List FieldDescriptor) (u : Upstream),
      (∀ x, u.name = some x → (fillUpstream fields u).name = some x) ∧
      (∀ x, u.algorithm = some x → (fillUpstream fields u).algorithm = some x) ∧
      (∀ x, u.slots = some x → (fillUpstream fields u).slots = some x) ∧
      (∀ x, u.healthchecks = some x → (fillUpstream fields u).healthchecks = some x) ∧
      (∀ x, u.hashOn = some x → (fillUpstream fields u).hashOn = some x) ∧
      (∀ x, u.hashFallback = some x → (fillUpstream fields u).hashFallback = some x) ∧
      (∀ x, u.hashOnCookiePath = some x →
        (fillUpstream fields u).hashOnCookiePath = some x)) ∧
    (∀ (fields : List FieldDescriptor) (h : Healthcheck),
      (∀ x, h.active = some x → (fillHealthcheck fields h).active = some x) ∧
      (∀ x, h.passive = some x → (fillHealthcheck fields h).passive = some x)) ∧
    (∀ (fields : List FieldDescriptor) (a : ActiveHealthcheck),
      (∀ x, a.concurrency = some x → (fillActive fields a).concurrency = some x) ∧
      (∀ x, a.healthy = some x → (fillActive fields a).healthy = some x) ∧
      (∀ x, a.httpPath = some x → (fillActive fields a).httpPath = some x) ∧
      (∀ x, a.httpsVerifyCertificate = some x →
        (fillActive fields a).httpsVerifyCertificate = some x) ∧
      (∀ x, a.typ = some x → (fillActive fields a).typ = some x) ∧
      (∀ x, a.timeout = some x → (fillActive fields a).timeout = some x) ∧
      (∀ x, a.unhealthy = some x → (fillActive fields a).unhealthy = some x)) ∧
    (∀ (fields : List FieldDescriptor) (p : PassiveHealthcheck),
      (∀ x, p.healthy = some x → (fillPassive fields p).healthy = some x) ∧
      (∀ x, p.typ = some x → (fillPassive fields p).typ = some x) ∧
      (∀ x, p.unhealthy = some x → (fillPassive fields p).unhealthy = some x)) ∧
    (∀ (fields : List FieldDescriptor) (h : Healthy),
      (∀ x, h.httpStatuses = some x → (fillHealthy fields h).httpStatuses = some x) ∧
      (∀ x, h.interval = some x → (fillHealthy fields h).interval = some x) ∧
      (∀ x, h.successes = some x → (fillHealthy fields h).successes = some x)) ∧
    (∀ (fields : List FieldDescriptor) (h : Unhealthy),
      (∀ x, h.httpFailures = some x → (fillUnhealthy fields h).httpFailures = some x) ∧
      (∀ x, h.httpStatuses = some x → (fillUnhealthy fields h).httpStatuses = some x) ∧
      (∀ x, h.tcpFailures = some x → (fillUnhealthy fields h).tcpFailures = some x) ∧
      (∀ x, h.timeouts = some x → (fillUnhealthy fields h).timeouts = some x) ∧
      (∀ x, h.interval = some x → (fillUnhealthy fields h).interval = some x)) := by
  refine ⟨fill_preserves_some, fill_preserves_scalar, ?_, ?_, ?_, ?_, ?_, ?_, ?_, ?_⟩
  · intro fields p k v h
    exact fill_preserves_some fields p.config k v h
  · intro fields t
    refine ⟨?_, ?_⟩ <;> intro x hx <;>
      simp only [fillTarget_target, fillTarget_weight, hx, foldScalar_some]
  · intro fields u
    refine ⟨?_, ?_, ?_, ?_, ?_, ?_, ?_⟩ <;> intro x hx <;>
      simp only [fillUpstream_name, fillUpstream_algorithm, fillUpstream_slots,
        fillUpstream_healthchecks, fillUpstream_hashOn, fillUpstream_hashFallback,
        fillUpstream_hashOnCookiePath, hx, foldScalar_some, foldRecord_some]
  · intro fields h
    refine ⟨?_, ?_⟩ <;> intro x hx <;>
      simp only [fillHealthcheck_active, fillHealthcheck_passive, hx, foldRecord_some]
  · intro fields a
    refine ⟨?_, ?_, ?_, ?_, ?_, ?_, ?_⟩ <;> intro x hx <;>
      simp only [fillActive_concurrency, fillActive_healthy, fillActive_httpPath,
        fillActive_httpsVerifyCertificate, fillActive_typ, fillActive_timeout,
        fillActive_unhealthy, hx, foldScalar_some, foldRecord_some]
  · intro fields p
    refine ⟨?_, ?_, ?_⟩ <;> intro x hx <;>
      simp only [fillPassive_healthy, fillPassive_typ, fillPassive_unhealthy, hx,
        foldScalar_some, foldRecord_some]
  · intro fields h
    refine ⟨?_, ?_, ?_⟩ <;> intro x hx <;>
      simp only [fillHealthy_httpStatuses, fillHealthy_interval, fillHealthy_successes,
        hx, foldScalar_some]
  · intro fields h
    refine ⟨?_, ?_, ?_, ?_, ?_⟩ <;> intro x hx <;>
      simp only [fillUnhealthy_httpFailures, fillUnhealthy_httpStatuses,
        fillUnhealthy_tcpFailures, fillUnhealthy_timeouts, fillUnhealthy_interval, hx,
        foldScalar_some]

theorem kong_fill_nondestructive_witness :
    lookupV [("mappings", Value.arr [Value.obj []])] "mappings" =
      some (Value.arr [Value.obj []]) ∧
    (∃ w, lookupV (fillConfigRecord enabledMappingsFields
        [("mappings", Value.arr [Value.obj []])]) "mappings" = some w) ∧
    lookupV [("enabled", Value.bool false)] "enabled" = some (Value.bool false) ∧
    lookupV (fillConfigRecord enabledMappingsFields
        [("enabled", Value.bool false)]) "enabled" = some (Value.bool false) ∧
    (fillTarget targetFields { weight := some 3 }).weight = some 3 ∧
    (fillUpstream upstreamFields { algorithm := some "least-connections" }).algorithm =
      some "least-connections" := by
  refine ⟨by simp [lookupV], ?_, by simp [lookupV], ?_, ?_, ?_⟩
  · exact kong_fill_nondestructive_amended.1 enabledMappingsFields
      [("mappings", Value.arr [Value.obj []])] "mappings" (Value.arr [Value.obj []])
      (by simp [lookupV])
  · exact kong_fill_nondestructive_amended.2.1 enabledMappingsFields
      [("enabled", Value.bool false)] "enabled" (Value.bool false) (by simp [lookupV])
      (by simp [enabledMappingsFields, FieldDescriptor.name, FieldDescriptor.kind])
  · exact (kong_fill_nondestructive_amended.2.2.2.1 targetFields
      { weight := some 3 }).2 3 rfl
  · exact (kong_fill_nondestructive_amended.2.2.2.2.1 upstreamFields
      { algorithm := some "least-connections" }).2.1 "least-connections" rfl

/-- Claim C7: typed nested default construction: filling an Upstream whose
healthchecks field is unset against the upstream schema materializes, in a
single top-level call, the complete active and passive healthcheck structure
with every leaf default of the schema. -/
theorem kong_upstream_healthcheck_defaults (u : Upstream) (h : u.healthchecks = none) :
    (fillUpstream upstreamFields u).healthchecks = some expectedHealthcheck := by
  rw [fillUpstream_healthchecks, h]
  simp [foldRecord, stepRecord, upstreamFields, healthchecksFields, activeFields,
    passiveFields, activeHealthyFields, activeUnhealthyFields, passiveHealthyFields,
    passiveUnhealthyFields, fillHealthcheck, applyHealthcheckField, fillActive,
    applyActiveField, fillPassive, applyPassiveField, fillHealthy, applyHealthyField,
    fillUnhealthy, applyUnhealthyField, stepScalar, hasDefaultTransitive, intOf, strOf,
    boolOf, intListOf, intsOf, expectedHealthcheck, FieldDescriptor.name,
    FieldDescriptor.kind, FieldDescriptor.dflt, FieldDescriptor.children]

theorem kong_upstream_healthcheck_defaults_witness :
    ({ name := some "upstream1" } : Upstream).healthchecks = none ∧
    (fillUpstream upstreamFields { name := some "upstream1" }).healthchecks =
      some expectedHealthcheck :=
  ⟨rfl, kong_upstream_healthcheck_defaults { name := some "upstream1" } rfl⟩

/-- Claim C8: idempotence: for every well-formed schema, re-applying
fillConfigRecord to its own output changes nothing, and every typed entity
filler — including those with record-kind nesting (Upstream, Healthcheck,
ActiveHealthcheck, PassiveHealthcheck) — is idempotent on every schema
unconditionally. -/
theorem kong_fill_idempotent :
    (∀ (fields : List FieldDescriptor) (c : ConfigMap), wfFields fields = true →
      fillConfigRecord fields (fillConfigRecord fields c) = fillConfigRecord fields c) ∧
    (∀ (fields : List FieldDescriptor) (t : Target),
      fillTarget fields (fillTarget fields t) = fillTarget fields t) ∧
    (∀ (fields : List FieldDescriptor) (u : Upstream),
      fillUpstream fields (fillUpstream fields u) = fillUpstream fields u) ∧
    (∀ (fields : List FieldDescriptor) (h : Healthcheck),
      fillHealthcheck fields (fillHealthcheck fields h) = fillHealthcheck fields h) ∧
    (∀ (fields : List FieldDescriptor) (a : ActiveHealthcheck),
      fillActive fields (fillActive fields a) = fillActive fields a) ∧
    (∀ (fields : List FieldDescriptor) (p : PassiveHealthcheck),
      fillPassive fields (fillPassive fields p) = fillPassive fields p) ∧
    (∀ (fields : List FieldDescriptor) (h : Healthy),
      fillHealthy fields (fillHealthy fields h) = fillHealthy fields h) ∧
    (∀ (fields : List FieldDescriptor) (h : Unhealthy),
      fillUnhealthy fields (fillUnhealthy fields h) = fillUnhealthy fields h) :=
  ⟨fun fields c hwf => fill_idem fields c hwf, fillTarget_idem, fillUpstream_idem,
    fillHealthcheck_idem, fillActive_idem, fillPassive_idem, fillHealthy_idem,
    fillUnhealthy_idem⟩

theorem kong_fill_idempotent_witness :
    wfFields enabledMappingsFields = true ∧
    fillConfigRecord enabledMappingsFields (fillConfigRecord enabledMappingsFields
      [("mappings", Value.arr [Value.obj [("nationality", Value.str "Ethiopian")]])]) =
    fillConfigRecord enabledMappingsFields
      [("mappings", Value.arr [Value.obj [("nationality", Value.str "Ethiopian")]])] := by
  have hwf : wfFields enabledMappingsFields = true := by
    simp [wfFields, enabledMappingsFields, mappingFields, fieldNames,
      FieldDescriptor.name, FieldDescriptor.children]
  exact ⟨hwf, kong_fill_idempotent.1 enabledMappingsFields
    [("mappings", Value.arr [Value.obj [("nationality", Value.str "Ethiopian")]])] hwf⟩
